import Mathlib

/-! # kubebilling: enumeration, identity storage and the collection loop

A shallow embedding of

* `pkg/crictl/crictl.go`    : `matchesRegex`, `sandboxByCreated`, `getSandboxesList`
* `pkg/records/pod_usage.go`: `PodUsageRecord`, `PodBaseRecord`
* `pkg/storage/sqlite3.go`  : `AddPodBaseRecord`, `AddPodUsageRecord`, `NewSqlite`
* `pkg/collector/collector.go`: `HandleSandBoxes`
* `cmd/kubebilling-daemon/main.go`: `parseLabelStringSlice`, `main`

Go slices of pointers are lists of values (nil pointers are outside the model),
`int64` and `int` fields are `Int` (they are only compared, never added).
-/

namespace Kubebilling

/-! ## Data model (runtime/v1 messages as far as the code reads them) -/

/-- Values of `runtimePb.PodSandboxState`. -/
inductive PodSandboxState where
  | SANDBOX_READY
  | SANDBOX_NOTREADY
  deriving DecidableEq, Repr

/-- Fields of `runtimePb.PodSandboxMetadata`. -/
structure PodSandboxMetadata where
  Name : String
  Uid : String
  Namespace : String
  Attempt : Nat
  deriving DecidableEq, Repr

/-- Fields of `runtimePb.PodSandbox` that the repository reads. -/
structure PodSandbox where
  Id : String
  Metadata : PodSandboxMetadata
  State : PodSandboxState
  CreatedAt : Int
  deriving DecidableEq, Repr

/-- Type `ListOptions` of crictl.go, field by field. -/
structure ListOptions where
  Id : String := ""
  podID : String := ""
  NameRegexp : String := ""
  PodNamespaceRegexp : String := ""
  State : String := ""
  Verbose : Bool := false
  Labels : List (String × String) := []
  Quiet : Bool := false
  Output : String := ""
  all : Bool := false
  Latest : Bool := false
  Last : Int := 0
  NoTrunc : Bool := false
  image : String := ""
  resolveImagePath : Bool := false
  deriving Repr

/-! ## The standard-library routines called by crictl.go

`regexp.MatchString` and `sort.Sort` are not code of the repository: they are
taken as parameters.  `regexpCompile pattern` is `none` when the pattern does
not compile and otherwise the compiled matcher. -/

/-- The two library routines `getSandboxesList` depends on. -/
structure Stdlib where
  regexpCompile : String → Option (String → Bool)
  sortSort : List PodSandbox → List PodSandbox

/-- Go `regexp.MatchString(pattern, s)`: compile, report the compile error,
otherwise run the matcher. -/
def regexpMatchString (lib : Stdlib) (pattern s : String) : Except String Bool :=
  match lib.regexpCompile pattern with
  | none => Except.error ("error parsing regexp: " ++ pattern)
  | some re => Except.ok (re s)

/-- Method `sandboxByCreated.Less`: `a[i].CreatedAt > a[j].CreatedAt`. -/
def sandboxByCreated.Less (ai aj : PodSandbox) : Bool :=
  decide (ai.CreatedAt > aj.CreatedAt)

/-- The documented contract of `sort.Sort` for `sandboxByCreated`: the slice is
rearranged (only `Swap` is used) and afterwards no later element is `Less`
than an earlier one.  Nothing is promised about elements that compare equal. -/
def SortContract (sortSort : List PodSandbox → List PodSandbox) : Prop :=
  ∀ data, (sortSort data).Perm data ∧
    (sortSort data).Pairwise (fun x y => sandboxByCreated.Less y x = false)

/-- Inner loop of Go `insertionSort`:
`for j := i; j > a && data.Less(j, j-1); j-- { data.Swap(j, j-1) }`.
The second argument is the already handled part `data[a:i]`, nearest element
first; the result is `data[a:i+1]` in the same reversed order. -/
def insertionSort.sink (x : PodSandbox) : List PodSandbox → List PodSandbox
  | [] => [x]
  | y :: before =>
    if sandboxByCreated.Less x y then y :: insertionSort.sink x before
    else x :: y :: before

/-- Go `insertionSort(data, 0, n)`: `for i := a + 1; i < b; i++` around the
inner loop.  It is the routine `sort.Sort` runs on a short slice (pdqsort hands
every slice of at most 12 elements to it). -/
def insertionSort (data : List PodSandbox) : List PodSandbox :=
  (data.foldl (fun done x => insertionSort.sink x done) []).reverse

/-- A small stand-in for `regexp.Compile`, used only to evaluate the
definitions on concrete inputs: the pattern `(` does not compile, every other
pattern matches exactly the targets equal to it. -/
def literalCompile (pattern : String) : Option (String → Bool) :=
  if pattern = "(" then none else some (fun s => decide (s = pattern))

/-- Library instance: `literalCompile` and `insertionSort`. -/
def smallLib : Stdlib := ⟨literalCompile, insertionSort⟩

/-! ## crictl.go -/

/-- Function `matchesRegex` of crictl.go. -/
def matchesRegex (lib : Stdlib) (pattern target : String) : Bool :=
  if pattern = "" then true
  else
    match regexpMatchString lib pattern target with
    | Except.error _ => false
    | Except.ok matched => matched

/-- The condition of the filter loop of `getSandboxesList`. -/
def passesFilters (lib : Stdlib) (opts : ListOptions) (p : PodSandbox) : Bool :=
  matchesRegex lib opts.NameRegexp p.Metadata.Name &&
    matchesRegex lib opts.PodNamespaceRegexp p.Metadata.Namespace

/-- The filter loop of `getSandboxesList`: `filtered = append(filtered, p)`
for every `p` that passes. -/
def filterLoop (lib : Stdlib) (opts : ListOptions) (sandboxesList : List PodSandbox) :
    List PodSandbox :=
  sandboxesList.foldl
    (fun filtered p => if passesFilters lib opts p then filtered ++ [p] else filtered) []

/-- The bound `n` computed by `getSandboxesList` from the options and
`len(filtered)`. -/
def sliceBound (opts : ListOptions) (len : Nat) : Int :=
  let n : Int := len
  let n := if opts.Latest then 1 else n
  let n := if opts.Last > 0 then opts.Last else n
  if n < (len : Int) then n else len

/-- Function `getSandboxesList` of crictl.go: filter, `sort.Sort`, bound,
`filtered[:n]`. -/
def getSandboxesList (lib : Stdlib) (sandboxesList : List PodSandbox) (opts : ListOptions) :
    List PodSandbox :=
  let filtered := filterLoop lib opts sandboxesList
  let filtered := lib.sortSort filtered
  let n := sliceBound opts filtered.length
  filtered.take n.toNat

/-- Sandbox constructor for concrete inputs. -/
def mkSandbox (id name ns : String) (createdAt : Int) : PodSandbox :=
  ⟨id, ⟨name, "uid-" ++ id, ns, 0⟩, PodSandboxState.SANDBOX_READY, createdAt⟩


/-! ## records/pod_usage.go -/

/-- Type `records.PodUsageRecord`. -/
structure PodUsageRecord where
  ID : Nat
  CreatedAt : Int
  UID : String
  State : PodSandboxState
  deriving DecidableEq, Repr

/-- Type `records.PodBaseRecord`; the tag on `UID` declares a unique index. -/
structure PodBaseRecord where
  UID : String
  CreatedAt : Int
  deriving DecidableEq, Repr

/-! ## The database behind `*gorm.DB`

A table is `none` until it has been created.  Every call takes the failure the
engine injects into it (`database is locked`, an I/O error), `none` when the
engine works. -/

/-- Errors a gorm call can report. -/
inductive DBError where
  | ErrRecordNotFound
  | UniqueConstraintFailed (column : String)
  | NoSuchTable (table : String)
  | Engine (msg : String)
  deriving DecidableEq, Repr

/-- Contents of the database file. -/
structure DB where
  pod_base_records : Option (List PodBaseRecord)
  pod_usage_records : Option (List PodUsageRecord)
  deriving DecidableEq, Repr

/-- Call `DB.First(&existsPbr, "uid = ?", uid)`: the first row with that uid,
`ErrRecordNotFound` when there is none. -/
def DB.First (db : DB) (fault : Option DBError) (uid : String) : Except DBError PodBaseRecord :=
  match fault with
  | some e => Except.error e
  | none =>
    match db.pod_base_records with
    | none => Except.error (DBError.NoSuchTable "pod_base_records")
    | some rows =>
      match rows.find? (fun r => decide (r.UID = uid)) with
      | some r => Except.ok r
      | none => Except.error DBError.ErrRecordNotFound

/-- Call `DB.Create` of a `PodBaseRecord`: the unique index on `uid` rejects a
second row with the same uid. -/
def DB.CreateBase (db : DB) (fault : Option DBError) (pbr : PodBaseRecord) :
    DB × Option DBError :=
  match fault with
  | some e => (db, some e)
  | none =>
    match db.pod_base_records with
    | none => (db, some (DBError.NoSuchTable "pod_base_records"))
    | some rows =>
      if rows.any (fun r => decide (r.UID = pbr.UID)) then
        (db, some (DBError.UniqueConstraintFailed "pod_base_records.uid"))
      else ({ db with pod_base_records := some (rows ++ [pbr]) }, none)

/-- Call `DB.Create` of a `PodUsageRecord`: the primary key is assigned by the
engine, one above the largest key in the table. -/
def DB.CreateUsage (db : DB) (fault : Option DBError) (pur : PodUsageRecord) :
    DB × Option DBError :=
  match fault with
  | some e => (db, some e)
  | none =>
    match db.pod_usage_records with
    | none => (db, some (DBError.NoSuchTable "pod_usage_records"))
    | some rows =>
      let id := rows.foldl (fun m r => max m r.ID) 0 + 1
      ({ db with pod_usage_records := some (rows ++ [{ pur with ID := id }]) }, none)

/-- Inserts other writers commit while a call is in progress. -/
def DB.commitOthers (db : DB) (rows : List PodBaseRecord) : DB :=
  rows.foldl (fun d r => (DB.CreateBase d none r).1) db

/-! ## storage/sqlite3.go -/

/-- What happens around one call of `AddPodBaseRecord`: the failure injected
into the lookup, the rows other writers commit between the lookup and the
insert, and the failure injected into the insert. -/
structure BaseCall where
  firstFault : Option DBError := none
  concurrent : List PodBaseRecord := []
  createFault : Option DBError := none
  deriving Repr

/-- Method `Sqlite.AddPodBaseRecord`. The result is the database afterwards
and the returned error (`none` for `nil`). -/
def AddPodBaseRecord (w : BaseCall) (s : DB) (pbr : PodBaseRecord) : DB × Option DBError :=
  match DB.First s w.firstFault pbr.UID with
  | Except.error err =>
    if err = DBError.ErrRecordNotFound then
      DB.CreateBase (DB.commitOthers s w.concurrent) w.createFault pbr
    else (s, none)
  | Except.ok _ => (s, none)

/-- Method `Sqlite.AddPodUsageRecord`. -/
def AddPodUsageRecord (fault : Option DBError) (s : DB) (pur : PodUsageRecord) :
    DB × Option DBError :=
  DB.CreateUsage s fault pur

/-- Function `NewSqlite` on a database file with the given contents:
`gorm.Open`, then `AutoMigrate(&records.PodUsageRecord{})`, which creates the
usage table when it is missing.  No other table is migrated. -/
def NewSqlite (file : DB) (openErr migrateErr : Option DBError) : Except DBError DB :=
  match openErr with
  | some e => Except.error e
  | none =>
    match migrateErr with
    | some e => Except.error e
    | none =>
      Except.ok { file with pod_usage_records := some (file.pod_usage_records.getD []) }

/-- A database file that has just been created. -/
def emptyFile : DB := ⟨none, none⟩

/-! ## collector/collector.go -/

/-- Fields of `runtimePb.PodSandboxStatus` that the collector reads. -/
structure PodSandboxStatus where
  Id : String
  Metadata : PodSandboxMetadata
  State : PodSandboxState
  CreatedAt : Int
  deriving DecidableEq, Repr

/-- The value `crictl.GetPodSandboxStats` returns. -/
structure PodSandboxStatusResponse where
  Status : PodSandboxStatus
  deriving DecidableEq, Repr

/-- What the outside world does while one sandbox is handled: the result of
`crictl.GetPodSandboxStats`, the clock `time.Now().UTC().Unix()`, and the
storage behaviour. -/
structure SandboxEnv where
  stats : Except String PodSandboxStatusResponse
  now : Int
  base : BaseCall := {}
  usageFault : Option DBError := none

/-- Calls made by `HandleSandBoxes`, with the index of the loop iteration
making them and the error they returned. -/
inductive Call where
  | GetPodSandboxStats (i : Nat) (id : String) (err : Option String)
  | AddPodBaseRecord (i : Nat) (pbr : PodBaseRecord) (err : Option DBError)
  | AddPodUsageRecord (i : Nat) (pur : PodUsageRecord) (err : Option DBError)
  deriving DecidableEq, Repr

/-- Loop iteration that made a call. -/
def Call.index : Call → Nat
  | Call.GetPodSandboxStats i _ _ => i
  | Call.AddPodBaseRecord i _ _ => i
  | Call.AddPodUsageRecord i _ _ => i

/-- The loop index and sandbox id of a `GetPodSandboxStats` call. -/
def Call.statsTarget : Call → Option (Nat × String)
  | Call.GetPodSandboxStats i id _ => some (i, id)
  | _ => none

/-- Body of the loop of `Daemon.HandleSandBoxes` for the sandbox at index `i`
(every `continue` ends the body). -/
def handleSandBox (w : SandboxEnv) (i : Nat) (s : DB) (psb : PodSandbox) : DB × List Call :=
  match w.stats with
  | Except.error err => (s, [Call.GetPodSandboxStats i psb.Id (some err)])
  | Except.ok psbStatus =>
    let now := w.now
    let pur : PodUsageRecord :=
      { ID := 0, CreatedAt := now, UID := psbStatus.Status.Metadata.Uid,
        State := psbStatus.Status.State }
    let pbr : PodBaseRecord := { UID := psbStatus.Status.Metadata.Uid, CreatedAt := now }
    match AddPodBaseRecord w.base s pbr with
    | (s1, some err) =>
      (s1, [Call.GetPodSandboxStats i psb.Id none, Call.AddPodBaseRecord i pbr (some err)])
    | (s1, none) =>
      match AddPodUsageRecord w.usageFault s1 pur with
      | (s2, err) =>
        (s2, [Call.GetPodSandboxStats i psb.Id none, Call.AddPodBaseRecord i pbr none,
              Call.AddPodUsageRecord i pur err])

/-- The loop of `HandleSandBoxes` from index `i` on. -/
def HandleSandBoxes.loop (env : Nat → SandboxEnv) : Nat → DB → List PodSandbox → DB × List Call
  | _, s, [] => (s, [])
  | i, s, psb :: rest =>
    let r := handleSandBox (env i) i s psb
    let r2 := HandleSandBoxes.loop env (i + 1) r.1 rest
    (r2.1, r.2 ++ r2.2)

/-- Method `Daemon.HandleSandBoxes`: the database afterwards and the calls
made, in order. -/
def HandleSandBoxes (env : Nat → SandboxEnv) (s : DB) (input : List PodSandbox) :
    DB × List Call :=
  HandleSandBoxes.loop env 0 s input

/-- Every persisted usage sample has an identity row with the same uid. -/
def SampleImpliesIdentity (db : DB) : Prop :=
  ∀ r ∈ db.pod_usage_records.getD [], ∃ b ∈ db.pod_base_records.getD [], b.UID = r.UID

/-- Response constructor for concrete inputs. -/
def mkStatus (id uid : String) : PodSandboxStatusResponse :=
  ⟨⟨id, ⟨"web", uid, "default", 0⟩, PodSandboxState.SANDBOX_READY, 100⟩⟩

/-! ## cmd/kubebilling-daemon/main.go -/

/-- Go `strings.Split` on the characters of a string, for a separator of one
character: the pieces between consecutive separators, `[[]]` for the empty
string. -/
def splitChars (sep : Char) : List Char → List (List Char)
  | [] => [[]]
  | c :: cs =>
    if c = sep then [] :: splitChars sep cs
    else
      match splitChars sep cs with
      | [] => [[c]]
      | piece :: pieces => (c :: piece) :: pieces

/-- Go `strings.Split(s, sep)` for the one-character separators the program
uses, `"="` and `","`. -/
def stringsSplit (s : String) (sep : Char) : List String :=
  (splitChars sep s.data).map String.mk

/-- A Go `map[string]string`, by the value it holds for each key. -/
def LabelMap : Type := String → Option String

/-- Go `make(map[string]string)`. -/
def LabelMap.make : LabelMap := fun _ => none

/-- Go `labels[k] = v`. -/
def LabelMap.set (labels : LabelMap) (k v : String) : LabelMap :=
  fun key => if key = k then some v else labels key

/-- The loop of `parseLabelStringSlice`, from the map built so far. -/
def parseLabelStringSlice.loop (labels : LabelMap) : List String → Except String LabelMap
  | [] => Except.ok labels
  | s :: rest =>
    let pair := stringsSplit s '='
    if pair.length ≠ 2 then Except.error ("incorrectly specified label: " ++ s)
    else parseLabelStringSlice.loop (labels.set (pair.getD 0 "") (pair.getD 1 "")) rest

/-- Function `parseLabelStringSlice` of main.go (the same text in both
commands). -/
def parseLabelStringSlice (ss : List String) : Except String LabelMap :=
  parseLabelStringSlice.loop LabelMap.make ss

/-- How far `main` of kubebilling-daemon gets. -/
inductive MainOutcome where
  | panicked (err : String)
  | daemonConstructed (filter : LabelMap)

/-- Function `main` of kubebilling-daemon up to the call of
`collector.NewDaemon`, for the value `*filterLabel` holds (its default is the
empty string). -/
def main (filterLabel : String) : MainOutcome :=
  match parseLabelStringSlice (stringsSplit filterLabel ',') with
  | Except.error err => MainOutcome.panicked err
  | Except.ok filter => MainOutcome.daemonConstructed filter

/-! ## Properties of the filter loop, the bound and `insertionSort` -/

theorem filterLoop_go (lib : Stdlib) (opts : ListOptions) (l acc : List PodSandbox) :
    l.foldl (fun filtered p => if passesFilters lib opts p then filtered ++ [p] else filtered) acc
      = acc ++ l.filter (passesFilters lib opts) := by
  induction l generalizing acc with
  | nil => simp
  | cons p ps ih =>
    simp only [List.foldl_cons, List.filter_cons]
    by_cases h : passesFilters lib opts p <;> simp [h, ih]

/-- The filter loop keeps, in order, the sandboxes that pass. -/
theorem filterLoop_eq_filter (lib : Stdlib) (opts : ListOptions) (l : List PodSandbox) :
    filterLoop lib opts l = l.filter (passesFilters lib opts) := by
  simp [filterLoop, filterLoop_go]

/-- The bound is within `0..len(filtered)`, so `filtered[:n]` never panics. -/
theorem sliceBound_in_range (opts : ListOptions) (len : Nat) :
    0 ≤ sliceBound opts len ∧ sliceBound opts len ≤ len := by
  unfold sliceBound
  simp only
  split_ifs <;> omega

theorem sink_perm (x : PodSandbox) (l : List PodSandbox) :
    (insertionSort.sink x l).Perm (x :: l) := by
  induction l with
  | nil => simp [insertionSort.sink]
  | cons y ys ih =>
    unfold insertionSort.sink
    split_ifs
    · exact (List.Perm.cons y ih).trans (List.Perm.swap x y ys)
    · exact List.Perm.refl _

theorem sink_sorted (x : PodSandbox) (l : List PodSandbox)
    (h : l.Pairwise (fun a b => a.CreatedAt ≤ b.CreatedAt)) :
    (insertionSort.sink x l).Pairwise (fun a b => a.CreatedAt ≤ b.CreatedAt) := by
  induction l with
  | nil => simp [insertionSort.sink]
  | cons y ys ih =>
    unfold insertionSort.sink
    rw [List.pairwise_cons] at h
    split_ifs with hl
    · simp only [sandboxByCreated.Less, decide_eq_true_eq] at hl
      rw [List.pairwise_cons]
      refine ⟨?_, ih h.2⟩
      intro z hz
      rcases List.mem_cons.1 ((sink_perm x ys).mem_iff.1 hz) with rfl | hz
      · omega
      · exact h.1 z hz
    · simp only [sandboxByCreated.Less, decide_eq_true_eq, not_lt, gt_iff_lt] at hl
      rw [List.pairwise_cons]
      refine ⟨?_, List.pairwise_cons.2 h⟩
      intro z hz
      rcases List.mem_cons.1 hz with rfl | hz
      · exact hl
      · exact le_trans hl (h.1 z hz)

theorem insertionSort_go (l acc : List PodSandbox)
    (h : acc.Pairwise (fun a b => a.CreatedAt ≤ b.CreatedAt)) :
    (l.foldl (fun done x => insertionSort.sink x done) acc).Perm (l ++ acc) ∧
    (l.foldl (fun done x => insertionSort.sink x done) acc).Pairwise
      (fun a b => a.CreatedAt ≤ b.CreatedAt) := by
  induction l generalizing acc with
  | nil => simpa using h
  | cons x xs ih =>
    simp only [List.foldl_cons]
    obtain ⟨hp, hs⟩ := ih (insertionSort.sink x acc) (sink_sorted x acc h)
    refine ⟨hp.trans ?_, hs⟩
    have := (sink_perm x acc)
    exact ((List.Perm.append_left xs this).trans List.perm_middle)

/-- Go `insertionSort` meets the contract of `sort.Sort`. -/
theorem insertionSort_contract : SortContract insertionSort := by
  intro data
  obtain ⟨hp, hs⟩ := insertionSort_go data [] List.Pairwise.nil
  constructor
  · unfold insertionSort
    exact (List.reverse_perm _).trans (by simpa using hp)
  · unfold insertionSort
    rw [List.pairwise_reverse]
    refine hs.imp ?_
    intro a b hab
    simp [sandboxByCreated.Less, hab]

/-! ## Properties of `getSandboxesList` -/

theorem getSandboxesList_eq (lib : Stdlib) (l : List PodSandbox) (opts : ListOptions) :
    getSandboxesList lib l opts =
      (lib.sortSort (l.filter (passesFilters lib opts))).take
        (sliceBound opts (lib.sortSort (l.filter (passesFilters lib opts))).length).toNat := by
  simp [getSandboxesList, filterLoop_eq_filter]

theorem sortSort_length (lib : Stdlib) (hs : SortContract lib.sortSort) (l : List PodSandbox) :
    (lib.sortSort l).length = l.length := (hs l).1.length_eq

theorem append_diff_self (a b : List PodSandbox) : (a ++ b).diff a = b := by
  induction a with
  | nil => simp
  | cons x xs ih => simp [List.diff_cons, ih]

/-- Two sorted arrangements of the same sandboxes are equal when equal
`CreatedAt` means equal sandbox. -/
theorem sorted_perm_unique (l1 l2 : List PodSandbox) (hp : l1.Perm l2)
    (h1 : l1.Pairwise (fun x y => sandboxByCreated.Less y x = false))
    (h2 : l2.Pairwise (fun x y => sandboxByCreated.Less y x = false))
    (hinj : ∀ a ∈ l1, ∀ b ∈ l1, a.CreatedAt = b.CreatedAt → a = b) : l1 = l2 := by
  induction l1 generalizing l2 with
  | nil => exact (List.nil_perm.1 hp).symm
  | cons a t1 ih =>
    cases l2 with
    | nil => exact absurd hp.length_eq (by simp)
    | cons b t2 =>
      rw [List.pairwise_cons] at h1 h2
      have hb : b ∈ a :: t1 := hp.mem_iff.2 (List.mem_cons_self _ _)
      have ha : a ∈ b :: t2 := hp.mem_iff.1 (List.mem_cons_self _ _)
      have hab : a = b := by
        rcases List.mem_cons.1 hb with h | hbt
        · exact h.symm
        · rcases List.mem_cons.1 ha with h | hat
          · exact h
          · have e1 := h1.1 b hbt
            have e2 := h2.1 a hat
            simp only [sandboxByCreated.Less, decide_eq_false_iff_not, not_lt, gt_iff_lt] at e1 e2
            exact hinj a (List.mem_cons_self _ _) b hb (le_antisymm e2 e1)
      subst hab
      have ht : t1 = t2 := ih t2 (List.Perm.cons_inv hp) h1.2 h2.2
        (fun x hx y hy => hinj x (List.mem_cons_of_mem _ hx) y (List.mem_cons_of_mem _ hy))
      rw [ht]

/-- Two sorted arrangements of the same sandboxes have the same sequence of
`CreatedAt` values. -/
theorem sorted_perm_createdAt (l1 l2 : List PodSandbox) (hp : l1.Perm l2)
    (h1 : l1.Pairwise (fun x y => sandboxByCreated.Less y x = false))
    (h2 : l2.Pairwise (fun x y => sandboxByCreated.Less y x = false)) :
    l1.map (fun p => p.CreatedAt) = l2.map (fun p => p.CreatedAt) := by
  have conv : ∀ l : List PodSandbox,
      l.Pairwise (fun x y => sandboxByCreated.Less y x = false) →
      (l.map (fun p => p.CreatedAt)).Sorted (· ≥ ·) := by
    intro l hl
    simp only [List.Sorted]
    rw [List.pairwise_map]
    exact hl.imp (fun h => by simpa [sandboxByCreated.Less] using h)
  exact List.eq_of_perm_of_sorted (hp.map _) (conv l1 h1) (conv l2 h2)

/-- C1. With `K` the number of input sandboxes that pass both regex filters,
`getSandboxesList` returns `min(N, K)` sandboxes when `Last = N > 0` (whether
or not `Latest` is set), `min(1, K)` when `Latest` is set and `Last <= 0`, and
`K` when `Latest` is not set and `Last <= 0`. -/
theorem getSandboxesList_length (lib : Stdlib) (hs : SortContract lib.sortSort)
    (sandboxesList : List PodSandbox) (opts : ListOptions) :
    (0 < opts.Last →
      ((getSandboxesList lib sandboxesList opts).length : Int)
        = min opts.Last (sandboxesList.countP (passesFilters lib opts) : Int)) ∧
    (opts.Latest = true → opts.Last ≤ 0 →
      (getSandboxesList lib sandboxesList opts).length
        = min 1 (sandboxesList.countP (passesFilters lib opts))) ∧
    (opts.Latest = false → opts.Last ≤ 0 →
      (getSandboxesList lib sandboxesList opts).length
        = sandboxesList.countP (passesFilters lib opts)) := by
  have hlen : (lib.sortSort (sandboxesList.filter (passesFilters lib opts))).length
      = sandboxesList.countP (passesFilters lib opts) := by
    rw [sortSort_length lib hs, List.countP_eq_length_filter]
  rw [getSandboxesList_eq, List.length_take, hlen]
  generalize sandboxesList.countP (passesFilters lib opts) = K
  unfold sliceBound
  refine ⟨?_, ?_, ?_⟩
  · intro hN
    simp only [hN, if_true]
    split_ifs <;> omega
  · intro hL hN
    have : ¬ (opts.Last > 0) := by omega
    simp only [hL, this, if_true, if_false]
    split_ifs <;> omega
  · intro hL hN
    have : ¬ (opts.Last > 0) := by omega
    simp [hL, this]

/-- C1 at a concrete input: three sandboxes, two pass the name filter, `Last = 5`. -/
theorem getSandboxesList_length_witness :
    ((getSandboxesList smallLib
        [mkSandbox "a" "web" "default" 100, mkSandbox "b" "db" "default" 300,
         mkSandbox "c" "web" "default" 200]
        { NameRegexp := "web", Last := 5 }).length : Int) = min 5 (2 : Int) :=
  (getSandboxesList_length smallLib insertionSort_contract
    [mkSandbox "a" "web" "default" 100, mkSandbox "b" "db" "default" 300,
     mkSandbox "c" "web" "default" 200]
    { NameRegexp := "web", Last := 5 }).1 (by decide)

theorem getSandboxesList_pairwise (lib : Stdlib) (hs : SortContract lib.sortSort)
    (l : List PodSandbox) (opts : ListOptions) :
    (getSandboxesList lib l opts).Pairwise (fun x y => x.CreatedAt ≥ y.CreatedAt) := by
  rw [getSandboxesList_eq]
  refine List.Pairwise.sublist (List.take_sublist _ _) ?_
  exact (hs _).2.imp (fun h => by simpa [sandboxByCreated.Less] using h)

/-- C2. The sequence returned by `getSandboxesList` is non-increasing in
`CreatedAt`: for positions `i < j` of the result,
`result[i].CreatedAt >= result[j].CreatedAt`. -/
theorem getSandboxesList_nonincreasing (lib : Stdlib) (hs : SortContract lib.sortSort)
    (sandboxesList : List PodSandbox) (opts : ListOptions) (i j : Nat) (x y : PodSandbox)
    (hij : i < j)
    (hx : (getSandboxesList lib sandboxesList opts)[i]? = some x)
    (hy : (getSandboxesList lib sandboxesList opts)[j]? = some y) :
    x.CreatedAt ≥ y.CreatedAt := by
  have hp := getSandboxesList_pairwise lib hs sandboxesList opts
  rw [List.pairwise_iff_getElem] at hp
  obtain ⟨hi, rfl⟩ := List.getElem?_eq_some_iff.1 hx
  obtain ⟨hj, rfl⟩ := List.getElem?_eq_some_iff.1 hy
  exact hp i j hi hj hij

/-- C2 at a concrete input: positions 0 and 1 of the result for `CreatedAt`
values 100, 300, 200. -/
theorem getSandboxesList_nonincreasing_witness :
    (getSandboxesList smallLib
        [mkSandbox "a" "web" "default" 100, mkSandbox "b" "web" "default" 300,
         mkSandbox "c" "web" "default" 200] {})[0]?
      = some (mkSandbox "b" "web" "default" 300) ∧
    (getSandboxesList smallLib
        [mkSandbox "a" "web" "default" 100, mkSandbox "b" "web" "default" 300,
         mkSandbox "c" "web" "default" 200] {})[1]?
      = some (mkSandbox "c" "web" "default" 200) ∧
    (mkSandbox "b" "web" "default" 300).CreatedAt
      ≥ (mkSandbox "c" "web" "default" 200).CreatedAt :=
  ⟨by decide, by decide,
   getSandboxesList_nonincreasing smallLib insertionSort_contract
    [mkSandbox "a" "web" "default" 100, mkSandbox "b" "web" "default" 300,
     mkSandbox "c" "web" "default" 200] {} 0 1 _ _ (by decide) (by decide) (by decide)⟩

/-- C3. The result of `getSandboxesList` is a sub-multiset of the sandboxes that
pass the filters, and every passing sandbox that truncation leaves out has
`CreatedAt` at most that of every returned sandbox.  Scenario: three passing
sandboxes created at 100, 300, 200 with `Last = 2` give the ones created at
300 and 200, in that order. -/
theorem getSandboxesList_selects_latest (lib : Stdlib) (hs : SortContract lib.sortSort) :
    (∀ (sandboxesList : List PodSandbox) (opts : ListOptions),
      (getSandboxesList lib sandboxesList opts).Subperm
          (sandboxesList.filter (passesFilters lib opts)) ∧
      ∀ x ∈ (sandboxesList.filter (passesFilters lib opts)).diff
              (getSandboxesList lib sandboxesList opts),
        ∀ y ∈ getSandboxesList lib sandboxesList opts, x.CreatedAt ≤ y.CreatedAt) ∧
    (∀ (a b c : PodSandbox) (opts : ListOptions),
      a.CreatedAt = 100 → b.CreatedAt = 300 → c.CreatedAt = 200 →
      passesFilters lib opts a = true → passesFilters lib opts b = true →
      passesFilters lib opts c = true → opts.Last = 2 →
      getSandboxesList lib [a, b, c] opts = [b, c]) := by
  constructor
  · intro l opts
    have hperm := (hs (l.filter (passesFilters lib opts))).1
    have hsorted := (hs (l.filter (passesFilters lib opts))).2
    rw [getSandboxesList_eq]
    generalize (sliceBound opts (lib.sortSort (l.filter (passesFilters lib opts))).length).toNat
      = k at *
    generalize lib.sortSort (l.filter (passesFilters lib opts)) = s at *
    constructor
    · exact (List.take_sublist k s).subperm.trans hperm.subperm
    · intro x hx y hy
      have h1 : ((l.filter (passesFilters lib opts)).diff (s.take k)).Perm (s.drop k) := by
        have h2 : (s.diff (s.take k)) = s.drop k := by
          conv_lhs => lhs; rw [← List.take_append_drop k s]
          exact append_diff_self _ _
        exact h2 ▸ List.Perm.diff_right (s.take k) hperm.symm
      have hx2 : x ∈ s.drop k := h1.mem_iff.1 hx
      rw [← List.take_append_drop k s, List.pairwise_append] at hsorted
      have := hsorted.2.2 y hy x hx2
      simpa [sandboxByCreated.Less] using this
  · intro a b c opts ha hb hc pa pb pc hlast
    have hf : [a, b, c].filter (passesFilters lib opts) = [a, b, c] := by
      simp [List.filter_cons, pa, pb, pc]
    have hperm := (hs [a, b, c]).1
    have hsorted := (hs [a, b, c]).2
    have hsort : lib.sortSort [a, b, c] = [b, c, a] := by
      refine (sorted_perm_unique [b, c, a] _ ?_ ?_ hsorted ?_).symm
      · refine List.Perm.trans ?_ hperm.symm
        exact (List.perm_append_comm : ([b, c] ++ [a]).Perm ([a] ++ [b, c]))
      · simp [sandboxByCreated.Less, ha, hb, hc]
      · intro x hx y hy hxy
        simp only [List.mem_cons, List.mem_singleton, List.not_mem_nil, or_false] at hx hy
        rcases hx with rfl | rfl | rfl <;> rcases hy with rfl | rfl | rfl <;>
          first
            | rfl
            | (rw [ha, hb] at hxy; omega)
            | (rw [ha, hc] at hxy; omega)
            | (rw [hb, hc] at hxy; omega)
    rw [getSandboxesList_eq, hf, hsort]
    simp [sliceBound, hlast]

/-- C3 at a concrete input: the scenario with `insertionSort`. -/
theorem getSandboxesList_selects_latest_witness :
    getSandboxesList smallLib
      [mkSandbox "a" "web" "default" 100, mkSandbox "b" "web" "default" 300,
       mkSandbox "c" "web" "default" 200] { Last := 2 }
      = [mkSandbox "b" "web" "default" 300, mkSandbox "c" "web" "default" 200] :=
  (getSandboxesList_selects_latest smallLib insertionSort_contract).2
    (mkSandbox "a" "web" "default" 100) (mkSandbox "b" "web" "default" 300)
    (mkSandbox "c" "web" "default" 200) { Last := 2 } rfl rfl rfl (by decide) (by decide)
    (by decide) rfl

theorem sliceBound_no_cap (opts : ListOptions) (len : Nat)
    (hL : opts.Latest = false) (hN : opts.Last ≤ 0) : (sliceBound opts len).toNat = len := by
  have : ¬ (opts.Last > 0) := by omega
  simp [sliceBound, hL, this]

/-- C4. Without a cap (`Latest` not set, `Last <= 0`) every sandbox occurs in
the result of `getSandboxesList` as often as in the input when both
`matchesRegex` tests hold for it and not at all otherwise; with any options
every returned sandbox satisfies both tests.  `matchesRegex` is true for the
empty pattern, false for a non-empty pattern that does not compile, and
otherwise the result of the compiled matcher. -/
theorem getSandboxesList_filter_closure (lib : Stdlib) (hs : SortContract lib.sortSort) :
    (∀ (sandboxesList : List PodSandbox) (opts : ListOptions) (p : PodSandbox),
      opts.Latest = false → opts.Last ≤ 0 →
      (getSandboxesList lib sandboxesList opts).count p =
        if matchesRegex lib opts.NameRegexp p.Metadata.Name = true ∧
            matchesRegex lib opts.PodNamespaceRegexp p.Metadata.Namespace = true
        then sandboxesList.count p else 0) ∧
    (∀ (sandboxesList : List PodSandbox) (opts : ListOptions),
      ∀ p ∈ getSandboxesList lib sandboxesList opts,
        matchesRegex lib opts.NameRegexp p.Metadata.Name = true ∧
          matchesRegex lib opts.PodNamespaceRegexp p.Metadata.Namespace = true) ∧
    (∀ target, matchesRegex lib "" target = true) ∧
    (∀ pattern target, pattern ≠ "" → lib.regexpCompile pattern = none →
      matchesRegex lib pattern target = false) ∧
    (∀ pattern target re, pattern ≠ "" → lib.regexpCompile pattern = some re →
      matchesRegex lib pattern target = re target) := by
  refine ⟨?_, ?_, ?_, ?_, ?_⟩
  · intro l opts p hL hN
    rw [getSandboxesList_eq, sliceBound_no_cap opts _ hL hN, List.take_length,
      (hs _).1.count_eq]
    by_cases hp : passesFilters lib opts p = true
    · rw [List.count_filter hp, if_pos (by simpa [passesFilters] using hp)]
    · rw [if_neg (by simpa [passesFilters] using hp)]
      exact List.count_eq_zero_of_not_mem (fun hm => hp (List.mem_filter.1 hm).2)
  · intro l opts p hp
    rw [getSandboxesList_eq] at hp
    have h1 := (hs _).1.mem_iff.1 (List.mem_of_mem_take hp)
    have h2 := (List.mem_filter.1 h1).2
    simpa [passesFilters] using h2
  · intro target
    simp [matchesRegex]
  · intro pattern target hne hc
    simp [matchesRegex, regexpMatchString, hne, hc]
  · intro pattern target re hne hc
    simp [matchesRegex, regexpMatchString, hne, hc]

/-- C4 at a concrete input: name pattern `web`, no cap; the sandbox named `web`
keeps its multiplicity 2. -/
theorem getSandboxesList_filter_closure_witness :
    (getSandboxesList smallLib
        [mkSandbox "a" "web" "default" 100, mkSandbox "b" "db" "default" 300,
         mkSandbox "a" "web" "default" 100] { NameRegexp := "web" }).count
        (mkSandbox "a" "web" "default" 100) = 2 :=
  ((getSandboxesList_filter_closure smallLib insertionSort_contract).1
    [mkSandbox "a" "web" "default" 100, mkSandbox "b" "db" "default" 300,
     mkSandbox "a" "web" "default" 100] { NameRegexp := "web" }
    (mkSandbox "a" "web" "default" 100) rfl (by decide)).trans (by decide)

/-- C10, as stated, fails: two sandboxes with equal `CreatedAt` come back in
their arrival order, so the two arrival orders give different sequences. -/
theorem getSandboxesList_order_depends_on_input :
    [mkSandbox "a" "web" "default" 100, mkSandbox "b" "web" "default" 100].Perm
      [mkSandbox "b" "web" "default" 100, mkSandbox "a" "web" "default" 100] ∧
    getSandboxesList smallLib
      [mkSandbox "a" "web" "default" 100, mkSandbox "b" "web" "default" 100] {}
      = [mkSandbox "a" "web" "default" 100, mkSandbox "b" "web" "default" 100] ∧
    getSandboxesList smallLib
      [mkSandbox "b" "web" "default" 100, mkSandbox "a" "web" "default" 100] {}
      = [mkSandbox "b" "web" "default" 100, mkSandbox "a" "web" "default" 100] ∧
    getSandboxesList smallLib
      [mkSandbox "a" "web" "default" 100, mkSandbox "b" "web" "default" 100] {}
      ≠ getSandboxesList smallLib
          [mkSandbox "b" "web" "default" 100, mkSandbox "a" "web" "default" 100] {} :=
  ⟨List.Perm.swap _ _ _, by decide, by decide, by decide⟩

/-- C10, amended. For input lists that are permutations of one another
`getSandboxesList` returns sequences with the same `CreatedAt` values position
by position, and the same sequence when sandboxes that pass the filters and
have equal `CreatedAt` are equal. -/
theorem getSandboxesList_deterministic_up_to_ties (lib : Stdlib)
    (hs : SortContract lib.sortSort) (l1 l2 : List PodSandbox) (opts : ListOptions)
    (hperm : l1.Perm l2) :
    (getSandboxesList lib l1 opts).map (fun p => p.CreatedAt)
      = (getSandboxesList lib l2 opts).map (fun p => p.CreatedAt) ∧
    ((∀ a ∈ l1, ∀ b ∈ l1, passesFilters lib opts a = true → passesFilters lib opts b = true →
        a.CreatedAt = b.CreatedAt → a = b) →
      getSandboxesList lib l1 opts = getSandboxesList lib l2 opts) := by
  have hf : (l1.filter (passesFilters lib opts)).Perm (l2.filter (passesFilters lib opts)) :=
    hperm.filter _
  have hss : (lib.sortSort (l1.filter (passesFilters lib opts))).Perm
      (lib.sortSort (l2.filter (passesFilters lib opts))) :=
    ((hs _).1.trans hf).trans (hs _).1.symm
  have hlen := hss.length_eq
  rw [getSandboxesList_eq, getSandboxesList_eq, ← hlen]
  constructor
  · rw [List.map_take, List.map_take,
      sorted_perm_createdAt _ _ hss (hs _).2 (hs _).2]
  · intro hinj
    rw [sorted_perm_unique _ _ hss (hs _).2 (hs _).2 ?_]
    intro a ha b hb hab
    have ha2 := List.mem_filter.1 ((hs _).1.mem_iff.1 ha)
    have hb2 := List.mem_filter.1 ((hs _).1.mem_iff.1 hb)
    exact hinj a ha2.1 b hb2.1 ha2.2 hb2.2 hab

/-- C10 amended, at a concrete input: two arrival orders of sandboxes with
distinct `CreatedAt`. -/
theorem getSandboxesList_deterministic_up_to_ties_witness :
    getSandboxesList smallLib
      [mkSandbox "a" "web" "default" 100, mkSandbox "b" "web" "default" 300] {}
      = getSandboxesList smallLib
          [mkSandbox "b" "web" "default" 300, mkSandbox "a" "web" "default" 100] {} :=
  (getSandboxesList_deterministic_up_to_ties smallLib insertionSort_contract
    [mkSandbox "a" "web" "default" 100, mkSandbox "b" "web" "default" 300]
    [mkSandbox "b" "web" "default" 300, mkSandbox "a" "web" "default" 100] {}
    (List.Perm.swap _ _ _)).2 (by decide)

/-! ## Properties of the storage layer -/

theorem find_none_of_absent (rows : List PodBaseRecord) (u : String)
    (h : ∀ r ∈ rows, r.UID ≠ u) : rows.find? (fun r => decide (r.UID = u)) = none := by
  rw [List.find?_eq_none]
  intro r hr
  simpa using h r hr

theorem any_false_of_absent (rows : List PodBaseRecord) (u : String)
    (h : ∀ r ∈ rows, r.UID ≠ u) : rows.any (fun r => decide (r.UID = u)) = false := by
  rw [List.any_eq_false]
  intro r hr
  simpa using h r hr

theorem filter_absent (rows : List PodBaseRecord) (u : String)
    (h : ∀ r ∈ rows, r.UID ≠ u) : rows.filter (fun r => decide (r.UID = u)) = [] := by
  rw [List.filter_eq_nil_iff]
  intro r hr
  simpa using h r hr

theorem AddPodBaseRecord_found (w : BaseCall) (s : DB) (rows : List PodBaseRecord)
    (pbr : PodBaseRecord) (hw : w.firstFault = none) (htable : s.pod_base_records = some rows)
    (h : ∃ r ∈ rows, r.UID = pbr.UID) : AddPodBaseRecord w s pbr = (s, none) := by
  obtain ⟨r, hr, hu⟩ := h
  have hf : (rows.find? (fun r => decide (r.UID = pbr.UID))).isSome = true := by
    rw [List.find?_isSome]
    exact ⟨r, hr, by simpa using hu⟩
  obtain ⟨x, hx⟩ := Option.isSome_iff_exists.1 hf
  simp [AddPodBaseRecord, DB.First, hw, htable, hx]

theorem AddPodBaseRecord_fresh (s : DB) (rows : List PodBaseRecord) (pbr : PodBaseRecord)
    (htable : s.pod_base_records = some rows) (h : ∀ r ∈ rows, r.UID ≠ pbr.UID) :
    AddPodBaseRecord {} s pbr
      = ({ s with pod_base_records := some (rows ++ [pbr]) }, none) := by
  simp [AddPodBaseRecord, DB.First, DB.CreateBase, DB.commitOthers, htable,
    find_none_of_absent rows pbr.UID h, any_false_of_absent rows pbr.UID h]

/-- C5. Over a store whose identity table exists and whose lookup and insert
succeed: when no row has uid `u`, two calls of `AddPodBaseRecord` with records
carrying `u` both return no error, the second leaves the store unchanged, and
the rows with uid `u` are exactly the record of the first call; when a row with
uid `u` exists, one call returns no error and leaves the store unchanged. -/
theorem AddPodBaseRecord_idempotent (s : DB) (rows : List PodBaseRecord) (u : String)
    (c1 c2 : Int) (htable : s.pod_base_records = some rows) :
    ((∀ r ∈ rows, r.UID ≠ u) →
      (AddPodBaseRecord {} s ⟨u, c1⟩).2 = none ∧
      (AddPodBaseRecord {} (AddPodBaseRecord {} s ⟨u, c1⟩).1 ⟨u, c2⟩).2 = none ∧
      (AddPodBaseRecord {} (AddPodBaseRecord {} s ⟨u, c1⟩).1 ⟨u, c2⟩).1
        = (AddPodBaseRecord {} s ⟨u, c1⟩).1 ∧
      ((AddPodBaseRecord {} (AddPodBaseRecord {} s ⟨u, c1⟩).1 ⟨u, c2⟩).1.pod_base_records.getD
          []).filter (fun r => decide (r.UID = u)) = [⟨u, c1⟩]) ∧
    ((∃ r ∈ rows, r.UID = u) → AddPodBaseRecord {} s ⟨u, c1⟩ = (s, none)) := by
  constructor
  · intro habs
    have h1 := AddPodBaseRecord_fresh s rows ⟨u, c1⟩ htable habs
    have h2 : AddPodBaseRecord {} { s with pod_base_records := some (rows ++ [⟨u, c1⟩]) } ⟨u, c2⟩
        = ({ s with pod_base_records := some (rows ++ [⟨u, c1⟩]) }, none) :=
      AddPodBaseRecord_found {} _ (rows ++ [⟨u, c1⟩]) ⟨u, c2⟩ rfl rfl
        ⟨⟨u, c1⟩, by simp, rfl⟩
    rw [h1]
    refine ⟨rfl, ?_, ?_, ?_⟩
    · rw [h2]
    · rw [h2]
    · rw [h2]
      simp [List.filter_append, filter_absent rows u habs]
  · intro hex
    exact AddPodBaseRecord_found {} s rows ⟨u, c1⟩ rfl htable hex

/-- C5 at a concrete input: an empty identity table, uid `pod-A`, calls at
times 1000 and 1060. -/
theorem AddPodBaseRecord_idempotent_witness :
    (AddPodBaseRecord {} (AddPodBaseRecord {} ⟨some [], some []⟩ ⟨"pod-A", 1000⟩).1
        ⟨"pod-A", 1060⟩).1
      = (AddPodBaseRecord {} ⟨some [], some []⟩ ⟨"pod-A", 1000⟩).1 :=
  ((AddPodBaseRecord_idempotent ⟨some [], some []⟩ [] "pod-A" 1000 1060 rfl).1
    (by simp)).2.2.1

/-- C6 fails on the code: a lookup that fails with an error other than
`ErrRecordNotFound` makes `AddPodBaseRecord` return `nil`, with nothing
inserted. -/
theorem AddPodBaseRecord_swallows_lookup_error :
    DB.First ⟨some [], some []⟩ (some (DBError.Engine "database is locked")) "pod-A"
      = Except.error (DBError.Engine "database is locked") ∧
    AddPodBaseRecord { firstFault := some (DBError.Engine "database is locked") }
        ⟨some [], some []⟩ ⟨"pod-A", 1000⟩
      = (⟨some [], some []⟩, none) :=
  ⟨rfl, rfl⟩

/-! ## Properties of the collection loop -/

/-- C7 fails on the code. A database opened by `NewSqlite` on a new file has no
identity table, so the lookup fails with an error other than
`ErrRecordNotFound`, `AddPodBaseRecord` returns `nil`, and the usage sample is
appended without an identity row; the same happens on a store with an identity
table when the lookup fails. -/
theorem HandleSandBoxes_sample_without_identity :
    NewSqlite emptyFile none none = Except.ok ⟨none, some []⟩ ∧
    SampleImpliesIdentity ⟨none, some []⟩ ∧
    HandleSandBoxes (fun _ => { stats := Except.ok (mkStatus "a" "pod-A"), now := 1000 })
        ⟨none, some []⟩ [mkSandbox "a" "web" "default" 100]
      = (⟨none, some [⟨1, 1000, "pod-A", PodSandboxState.SANDBOX_READY⟩]⟩,
         [Call.GetPodSandboxStats 0 "a" none,
          Call.AddPodBaseRecord 0 ⟨"pod-A", 1000⟩ none,
          Call.AddPodUsageRecord 0 ⟨0, 1000, "pod-A", PodSandboxState.SANDBOX_READY⟩ none]) ∧
    ¬ SampleImpliesIdentity ⟨none, some [⟨1, 1000, "pod-A", PodSandboxState.SANDBOX_READY⟩]⟩ ∧
    SampleImpliesIdentity ⟨some [], some []⟩ ∧
    HandleSandBoxes
        (fun _ => { stats := Except.ok (mkStatus "a" "pod-A"), now := 1000,
                    base := { firstFault := some (DBError.Engine "database is locked") } })
        ⟨some [], some []⟩ [mkSandbox "a" "web" "default" 100]
      = (⟨some [], some [⟨1, 1000, "pod-A", PodSandboxState.SANDBOX_READY⟩]⟩,
         [Call.GetPodSandboxStats 0 "a" none,
          Call.AddPodBaseRecord 0 ⟨"pod-A", 1000⟩ none,
          Call.AddPodUsageRecord 0 ⟨0, 1000, "pod-A", PodSandboxState.SANDBOX_READY⟩ none]) ∧
    ¬ SampleImpliesIdentity
        ⟨some [], some [⟨1, 1000, "pod-A", PodSandboxState.SANDBOX_READY⟩]⟩ := by
  refine ⟨rfl, ?_, rfl, ?_, ?_, rfl, ?_⟩ <;> simp [SampleImpliesIdentity]

/-- C9, as stated, fails: the lookup reports not-found, another writer inserts
the same uid before the insert, the insert fails on the unique index, and
`AddPodBaseRecord` returns that error; `HandleSandBoxes` then makes no
`AddPodUsageRecord` call for the sandbox. -/
theorem AddPodBaseRecord_duplicate_not_benign :
    DB.First ⟨some [], some []⟩ none "pod-A" = Except.error DBError.ErrRecordNotFound ∧
    AddPodBaseRecord { concurrent := [⟨"pod-A", 999⟩] } ⟨some [], some []⟩ ⟨"pod-A", 1000⟩
      = (⟨some [⟨"pod-A", 999⟩], some []⟩,
         some (DBError.UniqueConstraintFailed "pod_base_records.uid")) ∧
    HandleSandBoxes
        (fun _ => { stats := Except.ok (mkStatus "a" "pod-A"), now := 1000,
                    base := { concurrent := [⟨"pod-A", 999⟩] } })
        ⟨some [], some []⟩ [mkSandbox "a" "web" "default" 100]
      = (⟨some [⟨"pod-A", 999⟩], some []⟩,
         [Call.GetPodSandboxStats 0 "a" none,
          Call.AddPodBaseRecord 0 ⟨"pod-A", 1000⟩
            (some (DBError.UniqueConstraintFailed "pod_base_records.uid"))]) :=
  ⟨rfl, rfl, rfl⟩

theorem CreateBase_usage (db : DB) (fault : Option DBError) (pbr : PodBaseRecord) :
    (DB.CreateBase db fault pbr).1.pod_usage_records = db.pod_usage_records := by
  unfold DB.CreateBase
  cases fault with
  | some e => rfl
  | none =>
    cases h : db.pod_base_records with
    | none => rfl
    | some rows =>
      simp only
      split_ifs <;> rfl

theorem commitOthers_usage (rows : List PodBaseRecord) (db : DB) :
    (DB.commitOthers db rows).pod_usage_records = db.pod_usage_records := by
  induction rows generalizing db with
  | nil => rfl
  | cons r rs ih =>
    simp only [DB.commitOthers, List.foldl_cons] at ih ⊢
    rw [ih, CreateBase_usage]

/-- C9, amended. When the lookup reports not-found and the insert fails (with
a violation of the unique index on uid or any other error), `AddPodBaseRecord`
returns the insert error; `HandleSandBoxes` then makes no `AddPodUsageRecord`
call for that sandbox, leaves the usage table as it was, and goes on with the
remaining sandboxes. -/
theorem AddPodBaseRecord_returns_insert_error (w : BaseCall) (s : DB) (pbr : PodBaseRecord)
    (e : DBError)
    (hfirst : DB.First s w.firstFault pbr.UID = Except.error DBError.ErrRecordNotFound)
    (hcreate : (DB.CreateBase (DB.commitOthers s w.concurrent) w.createFault pbr).2 = some e) :
    (AddPodBaseRecord w s pbr).2 = some e ∧
    (AddPodBaseRecord w s pbr).1.pod_usage_records = s.pod_usage_records ∧
    ∀ (env : Nat → SandboxEnv) (psb : PodSandbox) (rest : List PodSandbox)
      (st : PodSandboxStatusResponse),
      (env 0).base = w → (env 0).stats = Except.ok st →
      pbr = ⟨st.Status.Metadata.Uid, (env 0).now⟩ →
      HandleSandBoxes env s (psb :: rest)
        = ((HandleSandBoxes.loop env 1 (AddPodBaseRecord w s pbr).1 rest).1,
           [Call.GetPodSandboxStats 0 psb.Id none, Call.AddPodBaseRecord 0 pbr (some e)]
             ++ (HandleSandBoxes.loop env 1 (AddPodBaseRecord w s pbr).1 rest).2) := by
  have hadd : AddPodBaseRecord w s pbr
      = DB.CreateBase (DB.commitOthers s w.concurrent) w.createFault pbr := by
    simp [AddPodBaseRecord, hfirst]
  refine ⟨by rw [hadd, hcreate], by rw [hadd, CreateBase_usage, commitOthers_usage], ?_⟩
  intro env psb rest st hb hst hpbr
  have hpair : AddPodBaseRecord w s pbr = ((AddPodBaseRecord w s pbr).1, some e) := by
    rw [hadd, ← hcreate]
  have hone : handleSandBox (env 0) 0 s psb
      = ((AddPodBaseRecord w s pbr).1,
         [Call.GetPodSandboxStats 0 psb.Id none, Call.AddPodBaseRecord 0 pbr (some e)]) := by
    unfold handleSandBox
    rw [hst]
    simp only
    rw [hb, ← hpbr, hpair]
  simp only [HandleSandBoxes, HandleSandBoxes.loop, hone, zero_add]

/-- C9 amended, at a concrete input: another writer inserts `pod-A` between the
lookup and the insert. -/
theorem AddPodBaseRecord_returns_insert_error_witness :
    (AddPodBaseRecord { concurrent := [⟨"pod-A", 999⟩] } ⟨some [], some []⟩
        ⟨"pod-A", 1000⟩).2
      = some (DBError.UniqueConstraintFailed "pod_base_records.uid") :=
  (AddPodBaseRecord_returns_insert_error { concurrent := [⟨"pod-A", 999⟩] }
    ⟨some [], some []⟩ ⟨"pod-A", 1000⟩ (DBError.UniqueConstraintFailed "pod_base_records.uid")
    rfl rfl).1

theorem handleSandBox_cases (w : SandboxEnv) (i : Nat) (s : DB) (psb : PodSandbox) :
    (∃ err, w.stats = Except.error err ∧
      (handleSandBox w i s psb).2 = [Call.GetPodSandboxStats i psb.Id (some err)]) ∨
    (∃ st pbr e, w.stats = Except.ok st ∧
      (handleSandBox w i s psb).2
        = [Call.GetPodSandboxStats i psb.Id none, Call.AddPodBaseRecord i pbr (some e)]) ∨
    (∃ st pbr pur e, w.stats = Except.ok st ∧
      (handleSandBox w i s psb).2
        = [Call.GetPodSandboxStats i psb.Id none, Call.AddPodBaseRecord i pbr none,
           Call.AddPodUsageRecord i pur e]) := by
  unfold handleSandBox
  cases hst : w.stats with
  | error err => exact Or.inl ⟨err, rfl, rfl⟩
  | ok st =>
    right
    simp only
    rcases hadd : AddPodBaseRecord w.base s
        ⟨st.Status.Metadata.Uid, w.now⟩ with ⟨s1, _ | e⟩
    · exact Or.inr ⟨st, _, _, _, rfl, rfl⟩
    · exact Or.inl ⟨st, _, e, rfl, rfl⟩

theorem handleSandBox_index (w : SandboxEnv) (i : Nat) (s : DB) (psb : PodSandbox) :
    ∀ c ∈ (handleSandBox w i s psb).2, c.index = i := by
  intro c hc
  rcases handleSandBox_cases w i s psb with ⟨err, _, h⟩ | ⟨st, pbr, e, _, h⟩ |
      ⟨st, pbr, pur, e, _, h⟩ <;>
    · rw [h] at hc
      simp only [List.mem_cons, List.mem_singleton, List.not_mem_nil, or_false] at hc
      rcases hc with rfl | rfl | rfl <;> rfl

theorem handleSandBox_stats (w : SandboxEnv) (i : Nat) (s : DB) (psb : PodSandbox) :
    (handleSandBox w i s psb).2.filterMap Call.statsTarget = [(i, psb.Id)] := by
  rcases handleSandBox_cases w i s psb with ⟨err, _, h⟩ | ⟨st, pbr, e, _, h⟩ |
      ⟨st, pbr, pur, e, _, h⟩ <;>
    · rw [h]
      simp [List.filterMap_cons, Call.statsTarget]

theorem handleSandBox_base (w : SandboxEnv) (i : Nat) (s : DB) (psb : PodSandbox) :
    (∃ pbr err, Call.AddPodBaseRecord i pbr err ∈ (handleSandBox w i s psb).2) ↔
      ∃ st, w.stats = Except.ok st := by
  rcases handleSandBox_cases w i s psb with ⟨err, hs, h⟩ | ⟨st, pbr, e, hs, h⟩ |
      ⟨st, pbr, pur, e, hs, h⟩ <;>
    · rw [h, hs]
      simp

theorem handleSandBox_usage (w : SandboxEnv) (i : Nat) (s : DB) (psb : PodSandbox) :
    (∃ pur err, Call.AddPodUsageRecord i pur err ∈ (handleSandBox w i s psb).2) ↔
      (∃ st, w.stats = Except.ok st) ∧
        ∃ pbr, Call.AddPodBaseRecord i pbr none ∈ (handleSandBox w i s psb).2 := by
  rcases handleSandBox_cases w i s psb with ⟨err, hs, h⟩ | ⟨st, pbr, e, hs, h⟩ |
      ⟨st, pbr, pur, e, hs, h⟩ <;>
    · rw [h, hs]
      simp

theorem loop_index (env : Nat → SandboxEnv) (k : Nat) (s : DB) (l : List PodSandbox) :
    ∀ c ∈ (HandleSandBoxes.loop env k s l).2, k ≤ c.index ∧ c.index < k + l.length := by
  induction l generalizing k s with
  | nil => simp [HandleSandBoxes.loop]
  | cons psb rest ih =>
    intro c hc
    simp only [HandleSandBoxes.loop, List.mem_append] at hc
    rcases hc with hc | hc
    · have := handleSandBox_index _ _ _ _ c hc
      simp only [List.length_cons]
      omega
    · have := ih (k + 1) _ c hc
      simp only [List.length_cons]
      omega

theorem loop_stats (env : Nat → SandboxEnv) (k : Nat) (s : DB) (l : List PodSandbox) :
    (HandleSandBoxes.loop env k s l).2.filterMap Call.statsTarget
      = (l.enumFrom k).map (fun ip => (ip.1, ip.2.Id)) := by
  induction l generalizing k s with
  | nil => simp [HandleSandBoxes.loop]
  | cons psb rest ih =>
    simp only [HandleSandBoxes.loop, List.filterMap_append, handleSandBox_stats, ih,
      List.enumFrom_cons, List.map_cons, List.singleton_append]

theorem loop_mem_split (env : Nat → SandboxEnv) (k : Nat) (s : DB) (psb : PodSandbox)
    (rest : List PodSandbox) (c : Call) :
    c ∈ (HandleSandBoxes.loop env k s (psb :: rest)).2 ↔
      (c.index = k ∧ c ∈ (handleSandBox (env k) k s psb).2) ∨
      (k + 1 ≤ c.index ∧
        c ∈ (HandleSandBoxes.loop env (k + 1) (handleSandBox (env k) k s psb).1 rest).2) := by
  simp only [HandleSandBoxes.loop, List.mem_append]
  constructor
  · rintro (h | h)
    · exact Or.inl ⟨handleSandBox_index _ _ _ _ c h, h⟩
    · exact Or.inr ⟨(loop_index env (k + 1) _ rest c h).1, h⟩
  · rintro (⟨_, h⟩ | ⟨_, h⟩)
    · exact Or.inl h
    · exact Or.inr h

theorem loop_base (env : Nat → SandboxEnv) (k : Nat) (s : DB) (l : List PodSandbox) (i : Nat) :
    (∃ pbr err, Call.AddPodBaseRecord i pbr err ∈ (HandleSandBoxes.loop env k s l).2) ↔
      (k ≤ i ∧ i < k + l.length) ∧ ∃ st, (env i).stats = Except.ok st := by
  induction l generalizing k s with
  | nil =>
    simp only [HandleSandBoxes.loop, List.not_mem_nil, exists_false, List.length_nil, false_iff]
    omega
  | cons psb rest ih =>
    simp only [loop_mem_split, Call.index, exists_or, List.length_cons]
    by_cases hik : i = k
    · subst hik
      have h1 := handleSandBox_base (env i) i s psb
      have h2 : ¬ (i + 1 ≤ i) := by omega
      simp only [true_and, h2, false_and, exists_false, or_false, h1]
      constructor
      · intro h; exact ⟨⟨le_refl _, by omega⟩, h⟩
      · intro h; exact h.2
    · have h2 := ih (k + 1) (handleSandBox (env k) k s psb).1
      simp only [hik, false_and, exists_false, false_or]
      constructor
      · rintro ⟨pbr, err, hle, hm⟩
        have := h2.1 ⟨pbr, err, hm⟩
        exact ⟨⟨by omega, by omega⟩, this.2⟩
      · rintro ⟨⟨h3, h4⟩, hst⟩
        obtain ⟨pbr, err, hm⟩ := h2.2 ⟨⟨by omega, by omega⟩, hst⟩
        exact ⟨pbr, err, by omega, hm⟩

theorem loop_usage (env : Nat → SandboxEnv) (k : Nat) (s : DB) (l : List PodSandbox) (i : Nat) :
    (∃ pur err, Call.AddPodUsageRecord i pur err ∈ (HandleSandBoxes.loop env k s l).2) ↔
      (∃ st, (env i).stats = Except.ok st) ∧
        ∃ pbr, Call.AddPodBaseRecord i pbr none ∈ (HandleSandBoxes.loop env k s l).2 := by
  induction l generalizing k s with
  | nil => simp [HandleSandBoxes.loop]
  | cons psb rest ih =>
    simp only [loop_mem_split, Call.index, exists_or]
    by_cases hik : i = k
    · subst hik
      have h1 := handleSandBox_usage (env i) i s psb
      have h2 : ¬ (i + 1 ≤ i) := by omega
      simp only [true_and, h2, false_and, exists_false, or_false, h1]
    · have h2 := ih (k + 1) (handleSandBox (env k) k s psb).1
      simp only [hik, false_and, exists_false, false_or]
      constructor
      · rintro ⟨pur, err, hle, hm⟩
        obtain ⟨hst, pbr, hb⟩ := h2.1 ⟨pur, err, hm⟩
        exact ⟨hst, pbr, hle, hb⟩
      · rintro ⟨hst, pbr, hle, hb⟩
        obtain ⟨pur, err, hm⟩ := h2.2 ⟨hst, pbr, hb⟩
        exact ⟨pur, err, hle, hm⟩

/-- C8. For every input list and every outcome of the per-sandbox calls,
`HandleSandBoxes` fetches the stats of every sandbox of the list, once and in
list order, whatever failed before; `AddPodBaseRecord` is called for a sandbox
exactly when its stats fetch succeeded, and `AddPodUsageRecord` exactly when
its stats fetch succeeded and its `AddPodBaseRecord` call returned no error. -/
theorem HandleSandBoxes_failure_isolation (env : Nat → SandboxEnv) (s : DB)
    (input : List PodSandbox) :
    (HandleSandBoxes env s input).2.filterMap Call.statsTarget
      = input.enum.map (fun ip => (ip.1, ip.2.Id)) ∧
    (∀ i, (∃ pbr err, Call.AddPodBaseRecord i pbr err ∈ (HandleSandBoxes env s input).2) ↔
      i < input.length ∧ ∃ st, (env i).stats = Except.ok st) ∧
    (∀ i, (∃ pur err, Call.AddPodUsageRecord i pur err ∈ (HandleSandBoxes env s input).2) ↔
      (∃ st, (env i).stats = Except.ok st) ∧
        ∃ pbr, Call.AddPodBaseRecord i pbr none ∈ (HandleSandBoxes env s input).2) := by
  refine ⟨loop_stats env 0 s input, ?_, fun i => loop_usage env 0 s input i⟩
  intro i
  have := loop_base env 0 s input i
  simpa using this

/-! ## How far the sample-implies-identity invariant does hold -/

theorem CreateBase_base (db : DB) (fault : Option DBError) (pbr : PodBaseRecord) :
    (∀ b ∈ db.pod_base_records.getD [], b ∈ (DB.CreateBase db fault pbr).1.pod_base_records.getD [])
    ∧ (db.pod_base_records ≠ none → (DB.CreateBase db fault pbr).1.pod_base_records ≠ none)
    ∧ ((DB.CreateBase db fault pbr).2 = none →
        pbr ∈ (DB.CreateBase db fault pbr).1.pod_base_records.getD []) := by
  unfold DB.CreateBase
  cases fault with
  | some e => simp
  | none =>
    cases h : db.pod_base_records with
    | none => simp [h]
    | some rows =>
      simp only
      split_ifs <;> simp [h]
      intro b hb
      exact Or.inl hb

theorem commitOthers_base (rows : List PodBaseRecord) (db : DB) :
    (∀ b ∈ db.pod_base_records.getD [], b ∈ (DB.commitOthers db rows).pod_base_records.getD [])
    ∧ (db.pod_base_records ≠ none → (DB.commitOthers db rows).pod_base_records ≠ none) := by
  induction rows generalizing db with
  | nil => exact ⟨fun _ h => h, fun h => h⟩
  | cons r rs ih =>
    simp only [DB.commitOthers, List.foldl_cons] at ih ⊢
    have h1 := CreateBase_base db none r
    have h2 := ih (DB.CreateBase db none r).1
    exact ⟨fun b hb => h2.1 b (h1.1 b hb), fun hne => h2.2 (h1.2.1 hne)⟩

theorem CreateUsage_rows (db : DB) (fault : Option DBError) (pur : PodUsageRecord) :
    (DB.CreateUsage db fault pur).1.pod_base_records = db.pod_base_records ∧
    ∀ r ∈ (DB.CreateUsage db fault pur).1.pod_usage_records.getD [],
      r ∈ db.pod_usage_records.getD [] ∨ r.UID = pur.UID := by
  unfold DB.CreateUsage
  cases fault with
  | some e => exact ⟨rfl, fun r hr => Or.inl hr⟩
  | none =>
    cases h : db.pod_usage_records with
    | none => simp [h]
    | some rows =>
      simp only [Option.getD_some, List.mem_append, List.mem_singleton, true_and]
      rintro r (hr | rfl)
      · exact Or.inl hr
      · exact Or.inr rfl

theorem AddPodBaseRecord_store (w : BaseCall) (s : DB) (pbr : PodBaseRecord)
    (hw : w.firstFault = none) (htable : s.pod_base_records ≠ none) :
    (AddPodBaseRecord w s pbr).1.pod_usage_records = s.pod_usage_records ∧
    (∀ b ∈ s.pod_base_records.getD [], b ∈ (AddPodBaseRecord w s pbr).1.pod_base_records.getD [])
    ∧ (AddPodBaseRecord w s pbr).1.pod_base_records ≠ none
    ∧ ((AddPodBaseRecord w s pbr).2 = none →
        ∃ b ∈ (AddPodBaseRecord w s pbr).1.pod_base_records.getD [], b.UID = pbr.UID) := by
  obtain ⟨rows, hrows⟩ := Option.ne_none_iff_exists'.1 htable
  cases hfind : rows.find? (fun r => decide (r.UID = pbr.UID)) with
  | some r =>
    have heq : AddPodBaseRecord w s pbr = (s, none) := by
      simp [AddPodBaseRecord, DB.First, hw, hrows, hfind]
    rw [heq]
    refine ⟨rfl, fun b hb => hb, htable, fun _ => ⟨r, ?_, ?_⟩⟩
    · rw [hrows]; exact List.mem_of_find?_eq_some hfind
    · simpa using List.find?_some hfind
  | none =>
    have heq : AddPodBaseRecord w s pbr
        = DB.CreateBase (DB.commitOthers s w.concurrent) w.createFault pbr := by
      simp [AddPodBaseRecord, DB.First, hw, hrows, hfind]
    rw [heq]
    have hc := commitOthers_base w.concurrent s
    have hb := CreateBase_base (DB.commitOthers s w.concurrent) w.createFault pbr
    refine ⟨by rw [CreateBase_usage, commitOthers_usage],
      fun b hm => hb.1 b (hc.1 b hm), hb.2.1 (hc.2 htable), fun hnone => ⟨pbr, hb.2.2 hnone, rfl⟩⟩

theorem handleSandBox_invariant (w : SandboxEnv) (i : Nat) (s : DB) (psb : PodSandbox)
    (hw : w.base.firstFault = none) (htable : s.pod_base_records ≠ none)
    (hinv : SampleImpliesIdentity s) :
    (handleSandBox w i s psb).1.pod_base_records ≠ none ∧
    SampleImpliesIdentity (handleSandBox w i s psb).1 := by
  unfold handleSandBox
  cases hst : w.stats with
  | error err => exact ⟨htable, hinv⟩
  | ok st =>
    simp only
    obtain ⟨hu, hmono, hne, hid⟩ :=
      AddPodBaseRecord_store w.base s ⟨st.Status.Metadata.Uid, w.now⟩ hw htable
    have hinv1 : SampleImpliesIdentity
        (AddPodBaseRecord w.base s ⟨st.Status.Metadata.Uid, w.now⟩).1 := by
      intro r hr
      rw [hu] at hr
      obtain ⟨b, hb, hbu⟩ := hinv r hr
      exact ⟨b, hmono b hb, hbu⟩
    rcases hadd : AddPodBaseRecord w.base s
        ⟨st.Status.Metadata.Uid, w.now⟩ with ⟨s1, _ | e⟩
    · rw [hadd] at hne hid hinv1
      simp only at hne hid hinv1 ⊢
      have hcu := CreateUsage_rows s1 w.usageFault
        ⟨0, w.now, st.Status.Metadata.Uid, st.Status.State⟩
      unfold AddPodUsageRecord
      refine ⟨by rw [hcu.1]; exact hne, ?_⟩
      intro r hr
      rw [hcu.1]
      rcases hcu.2 r hr with hold | hnew
      · exact hinv1 r hold
      · obtain ⟨b, hb, hbu⟩ := hid trivial
        exact ⟨b, hb, hbu.trans hnew.symm⟩
    · rw [hadd] at hne hinv1
      exact ⟨hne, hinv1⟩

/-- The sample-implies-identity invariant does hold when the identity table
exists and no lookup fails: every run of `HandleSandBoxes` then keeps an identity row for every
persisted sample, whatever the stats fetches, the inserts and other writers
do. -/
theorem HandleSandBoxes_invariant_without_lookup_failure (env : Nat → SandboxEnv) (s : DB)
    (input : List PodSandbox) (henv : ∀ i, (env i).base.firstFault = none)
    (htable : s.pod_base_records ≠ none) (hinv : SampleImpliesIdentity s) :
    SampleImpliesIdentity (HandleSandBoxes env s input).1 := by
  unfold HandleSandBoxes
  generalize 0 = k
  induction input generalizing k s with
  | nil => exact hinv
  | cons psb rest ih =>
    simp only [HandleSandBoxes.loop]
    obtain ⟨h1, h2⟩ := handleSandBox_invariant (env k) k s psb (henv k) htable hinv
    exact ih _ h1 h2 (k + 1)

/-! ## Properties of `strings.Split` and `parseLabelStringSlice` -/

theorem splitChars_ne_nil (sep : Char) (l : List Char) : splitChars sep l ≠ [] := by
  cases l with
  | nil => simp [splitChars]
  | cons c cs =>
    unfold splitChars
    split_ifs
    · simp
    · cases splitChars sep cs <;> simp

/-- No piece of a split contains the separator. -/
theorem splitChars_no_sep (sep : Char) (l : List Char) :
    ∀ piece ∈ splitChars sep l, sep ∉ piece := by
  induction l with
  | nil => simp [splitChars]
  | cons c cs ih =>
    unfold splitChars
    split_ifs with hc
    · intro piece hp
      rcases List.mem_cons.1 hp with rfl | hp
      · simp
      · exact ih piece hp
    · cases hs : splitChars sep cs with
      | nil => exact absurd hs (splitChars_ne_nil sep cs)
      | cons p ps =>
        rw [hs] at ih
        intro piece hp
        rcases List.mem_cons.1 hp with rfl | hp
        · intro hmem
          rcases List.mem_cons.1 hmem with h | h
          · exact hc h.symm
          · exact ih p (List.mem_cons_self _ _) h
        · exact ih piece (List.mem_cons_of_mem _ hp)

/-- Joining the pieces of a split with the separator gives the string back. -/
theorem splitChars_join (sep : Char) (l : List Char) :
    List.intercalate [sep] (splitChars sep l) = l := by
  induction l with
  | nil => simp [splitChars, List.intercalate]
  | cons c cs ih =>
    unfold splitChars
    split_ifs with hc
    · cases hs : splitChars sep cs with
      | nil => exact absurd hs (splitChars_ne_nil sep cs)
      | cons p ps =>
        rw [hs] at ih
        subst hc
        simpa [List.intercalate, List.intersperse] using ih
    · cases hs : splitChars sep cs with
      | nil => exact absurd hs (splitChars_ne_nil sep cs)
      | cons p ps =>
        rw [hs] at ih
        cases ps with
        | nil => simpa [List.intercalate, List.intersperse] using ih
        | cons q qs => simpa [List.intercalate, List.intersperse] using ih

theorem parseLoop_error_iff (labels : LabelMap) (ss : List String) :
    (∃ err, parseLabelStringSlice.loop labels ss = Except.error err) ↔
      ∃ s ∈ ss, (stringsSplit s '=').length ≠ 2 := by
  induction ss generalizing labels with
  | nil => simp [parseLabelStringSlice.loop]
  | cons s rest ih =>
    unfold parseLabelStringSlice.loop
    by_cases hlen : (stringsSplit s '=').length ≠ 2
    · rw [if_pos hlen]
      exact ⟨fun _ => ⟨s, List.mem_cons_self _ _, hlen⟩, fun _ => ⟨_, rfl⟩⟩
    · rw [if_neg hlen, ih]
      simp only [List.mem_cons, exists_eq_or_imp, hlen, false_or]

theorem parseLoop_ok_lookup (labels : LabelMap) (ss : List String) (m : LabelMap)
    (h : parseLabelStringSlice.loop labels ss = Except.ok m) (k v : String) :
    m k = some v ↔
      (∃ pre s post, ss = pre ++ s :: post ∧ stringsSplit s '=' = [k, v] ∧
        ∀ t ∈ post, (stringsSplit t '=').head? ≠ some k) ∨
      (labels k = some v ∧ ∀ t ∈ ss, (stringsSplit t '=').head? ≠ some k) := by
  induction ss generalizing labels with
  | nil =>
    simp only [parseLabelStringSlice.loop] at h
    cases h
    simp
  | cons s rest ih =>
    unfold parseLabelStringSlice.loop at h
    by_cases hlen : (stringsSplit s '=').length ≠ 2
    · rw [if_pos hlen] at h
      cases h
    · rw [if_neg hlen] at h
      obtain ⟨k0, v0, hpair⟩ : ∃ k0 v0, stringsSplit s '=' = [k0, v0] := by
        have h2 : (stringsSplit s '=').length = 2 := not_not.1 hlen
        exact List.length_eq_two.1 h2
      rw [hpair] at h
      simp only [List.getD_cons_zero, List.getD_cons_succ] at h
      rw [ih (labels.set k0 v0) h]
      constructor
      · rintro (⟨pre, s1, post, hss, hs1, hpost⟩ | ⟨hset, hrest⟩)
        · exact Or.inl ⟨s :: pre, s1, post, by rw [hss]; rfl, hs1, hpost⟩
        · by_cases hk : k = k0
          · subst hk
            have hv : v0 = v := by simpa [LabelMap.set] using hset
            subst hv
            exact Or.inl ⟨[], s, rest, rfl, hpair, hrest⟩
          · refine Or.inr ⟨by simpa [LabelMap.set, hk] using hset, ?_⟩
            intro t ht
            rcases List.mem_cons.1 ht with rfl | ht
            · rw [hpair]
              simpa using fun h => hk h.symm
            · exact hrest t ht
      · rintro (⟨pre, s1, post, hss, hs1, hpost⟩ | ⟨hlab, hall⟩)
        · cases pre with
          | nil =>
            simp only [List.nil_append, List.cons.injEq] at hss
            obtain ⟨rfl, rfl⟩ := hss
            rw [hpair] at hs1
            simp only [List.cons.injEq, and_true] at hs1
            obtain ⟨rfl, rfl⟩ := hs1
            exact Or.inr ⟨by simp [LabelMap.set], hpost⟩
          | cons p pre1 =>
            simp only [List.cons_append, List.cons.injEq] at hss
            exact Or.inl ⟨pre1, s1, post, hss.2, hs1, hpost⟩
        · have hk : k ≠ k0 := by
            have := hall s (List.mem_cons_self _ _)
            rw [hpair] at this
            intro hkk
            exact this (by simp [hkk])
          exact Or.inr ⟨by simpa [LabelMap.set, hk] using hlab,
            fun t ht => hall t (List.mem_cons_of_mem _ ht)⟩

/-- C11. `parseLabelStringSlice` returns an error exactly when some element of
its input does not split on `=` into two parts; otherwise it returns a map in
which a key has a value exactly when that is the value of the last element
with that key.  Splitting the default empty filter-label value on `,` gives
the list with the empty string alone, which is rejected, so `main` panics
before the daemon is constructed. -/
theorem parseLabelStringSlice_spec :
    (∀ ss : List String,
      (∃ err, parseLabelStringSlice ss = Except.error err) ↔
        ∃ s ∈ ss, (stringsSplit s '=').length ≠ 2) ∧
    (∀ ss : List String, (∀ s ∈ ss, (stringsSplit s '=').length = 2) →
      ∃ labels, parseLabelStringSlice ss = Except.ok labels ∧
        ∀ k v, labels k = some v ↔
          ∃ pre s post, ss = pre ++ s :: post ∧ stringsSplit s '=' = [k, v] ∧
            ∀ t ∈ post, (stringsSplit t '=').head? ≠ some k) ∧
    stringsSplit "" ',' = [""] ∧
    parseLabelStringSlice [""] = Except.error "incorrectly specified label: " ∧
    main "" = MainOutcome.panicked "incorrectly specified label: " := by
  refine ⟨fun ss => parseLoop_error_iff LabelMap.make ss, ?_, rfl, rfl, rfl⟩
  intro ss hall
  cases hres : parseLabelStringSlice ss with
  | error err =>
    obtain ⟨s, hs, hlen⟩ := (parseLoop_error_iff LabelMap.make ss).1 ⟨err, hres⟩
    exact absurd (hall s hs) hlen
  | ok labels =>
    refine ⟨labels, rfl, fun k v => ?_⟩
    rw [parseLoop_ok_lookup LabelMap.make ss labels hres k v]
    simp [LabelMap.make]

/-- C11 at a concrete input: two labels with the same key, both of two parts. -/
theorem parseLabelStringSlice_spec_witness :
    ∃ labels, parseLabelStringSlice ["a=b", "a=e"] = Except.ok labels ∧
      ∀ k v, labels k = some v ↔
        ∃ pre s post, ["a=b", "a=e"] = pre ++ s :: post ∧ stringsSplit s '=' = [k, v] ∧
          ∀ t ∈ post, (stringsSplit t '=').head? ≠ some k :=
  parseLabelStringSlice_spec.2.1 ["a=b", "a=e"] (by decide)

/-- Three labels, one key given twice: the later value is the one kept. -/
theorem parseLabelStringSlice_example :
    ∃ labels, parseLabelStringSlice ["a=b", "c=d", "a=e"] = Except.ok labels ∧
      labels "a" = some "e" ∧ labels "c" = some "d" ∧ labels "x" = none :=
  ⟨_, rfl, rfl, rfl, rfl⟩

/-- With the value `app=web` in `*filterLabel` the parse succeeds and `main`
reaches the construction of the daemon. -/
theorem main_with_filter :
    ∃ filter, main "app=web" = MainOutcome.daemonConstructed filter ∧
      filter "app" = some "web" :=
  ⟨_, rfl, rfl⟩

end Kubebilling
